import Mathlib

/-!
# Verification of the Hausdorff-distance kernel of `04_jit/04_actividad.ipynb`

The notebook defines three plain-Python functions, `metric_python`,
`inf_dist_python` and `hausdorff_python`, and three Numba-decorated
copies `metric_numba`, `inf_dist_numba` and `hausdorff_numba` with
textually identical bodies.  We embed them shallowly:

* a point (a NumPy 1-D `float64` row) is a `List ℝ`;
* a point set (a 2-D array) is a `List (List ℝ)`, the list of its rows;
* Python floats are idealized as real numbers; the value `np.inf` that
  `inf_dist_python` starts from is modelled by `⊤ : WithTop ℝ`;
* NumPy raises a `ValueError` when `x - y` is applied to two 1-D arrays
  whose lengths differ and neither length is 1 (otherwise the length-1
  operand broadcasts); computations that can raise return
  `Except NpError _`.

The Python `for` loops become structural recursions threading the
accumulator exactly as the loops thread `inf` / `sup1` / `sup2`.
-/

noncomputable section

/-- A point: one row of a 2-D `float64` array. -/
abbrev Pt := List ℝ

/-- The single error NumPy raises in this kernel: a `ValueError` from
broadcasting two 1-D arrays of incompatible lengths. -/
inductive NpError : Type where
  | broadcast : NpError
deriving DecidableEq

/-- NumPy 1-D subtraction `x - y` with broadcasting: elementwise when the
lengths agree, a length-1 operand is broadcast across the other, and any
other length combination raises. -/
def broadcastSub (x y : Pt) : Except NpError Pt :=
  if x.length = y.length then
    .ok (List.zipWith (fun a b => a - b) x y)
  else if x.length = 1 then
    .ok (y.map (fun b => x.headD 0 - b))
  else if y.length = 1 then
    .ok (x.map (fun a => a - y.headD 0))
  else
    .error .broadcast

/-- `metric_python(x, y)`:
`ret = x - y; ret *= ret; return np.sqrt(ret).sum()`.
Note the source applies `np.sqrt` elementwise *before* summing. -/
def metric_python (x y : Pt) : Except NpError ℝ := do
  let ret ← broadcastSub x y
  let ret := ret.map (fun a => a * a)
  return ((ret.map Real.sqrt).sum)

/-- The loop of `inf_dist_python`: `for i in range(m): dist = metric(x, Y[i]);
if dist < inf: inf = dist`, threading the accumulator `inf`. -/
def inf_dist_loop (x : Pt) : List Pt → WithTop ℝ → Except NpError (WithTop ℝ)
  | [], inf => .ok inf
  | yi :: rest, inf =>
    match metric_python x yi with
    | .error e => .error e
    | .ok dist =>
      inf_dist_loop x rest (if (dist : WithTop ℝ) < inf then (dist : WithTop ℝ) else inf)

/-- `inf_dist_python(x, Y)`: running minimum over the rows of `Y`,
initialized to `np.inf`. -/
def inf_dist_python (x : Pt) (Y : List Pt) : Except NpError (WithTop ℝ) :=
  inf_dist_loop x Y ⊤

/-- One of the two outer loops of `hausdorff_python`: `for i: inf = inf_dist(A[i], B);
if inf > sup: sup = inf`, threading the accumulator `sup`. -/
def sup_loop : List Pt → List Pt → WithTop ℝ → Except NpError (WithTop ℝ)
  | [], _, sup => .ok sup
  | ai :: rest, B, sup =>
    match inf_dist_python ai B with
    | .error e => .error e
    | .ok inf1 =>
      sup_loop rest B (if sup < inf1 then inf1 else sup)

/-- `hausdorff_python(X, Y)`: `sup1 = -1.; sup2 = -1.;` then the two outer
loops, then `return max(sup1, sup2)`. -/
def hausdorff_python (X Y : List Pt) : Except NpError (WithTop ℝ) := do
  let sup1 ← sup_loop X Y ((-1 : ℝ) : WithTop ℝ)
  let sup2 ← sup_loop Y X ((-1 : ℝ) : WithTop ℝ)
  return max sup1 sup2

/-- `metric_numba`: identical body to `metric_python` (the `@numba.jit`
decorator only changes the execution strategy). -/
def metric_numba (x y : Pt) : Except NpError ℝ := do
  let ret ← broadcastSub x y
  let ret := ret.map (fun a => a * a)
  return ((ret.map Real.sqrt).sum)

/-- The loop of `inf_dist_numba`, calling `metric_numba`. -/
def inf_dist_loop_numba (x : Pt) : List Pt → WithTop ℝ → Except NpError (WithTop ℝ)
  | [], inf => .ok inf
  | yi :: rest, inf =>
    match metric_numba x yi with
    | .error e => .error e
    | .ok dist =>
      inf_dist_loop_numba x rest (if (dist : WithTop ℝ) < inf then (dist : WithTop ℝ) else inf)

/-- `inf_dist_numba(x, Y)`: identical body to `inf_dist_python`. -/
def inf_dist_numba (x : Pt) (Y : List Pt) : Except NpError (WithTop ℝ) :=
  inf_dist_loop_numba x Y ⊤

/-- One outer loop of `hausdorff_numba`, calling `inf_dist_numba`. -/
def sup_loop_numba : List Pt → List Pt → WithTop ℝ → Except NpError (WithTop ℝ)
  | [], _, sup => .ok sup
  | ai :: rest, B, sup =>
    match inf_dist_numba ai B with
    | .error e => .error e
    | .ok inf1 =>
      sup_loop_numba rest B (if sup < inf1 then inf1 else sup)

/-- `hausdorff_numba(X, Y)`: identical body to `hausdorff_python`. -/
def hausdorff_numba (X Y : List Pt) : Except NpError (WithTop ℝ) := do
  let sup1 ← sup_loop_numba X Y ((-1 : ℝ) : WithTop ℝ)
  let sup2 ← sup_loop_numba Y X ((-1 : ℝ) : WithTop ℝ)
  return max sup1 sup2

/-- The Euclidean distance the spec's contract (§4.1) promises:
`sqrt(sum_{k=1..d} (x_k - y_k)^2)`. -/
def euclid_spec (x y : Pt) : ℝ :=
  Real.sqrt (((List.zipWith (fun a b => a - b) x y).map (fun a => a ^ 2)).sum)

/-! ### Pure value-level reformulations

When every pair of rows has the same length no `ValueError` can occur, and
the loops compute plain folds of `min` / `max` over real numbers.  The
following definitions name those folds; lemmas below prove that the
embedded functions return `.ok` of them. -/

/-- The real number `metric_python x y` returns when `x.length = y.length`. -/
def metricVal (x y : Pt) : ℝ :=
  (((List.zipWith (fun a b => a - b) x y).map (fun a => a * a)).map Real.sqrt).sum

/-- The value of `inf_dist_python x Y` (for well-dimensioned input): the
running minimum over the rows of `Y`, starting at `np.inf`. -/
def infVal (x : Pt) (Y : List Pt) : WithTop ℝ :=
  Y.foldl (fun m y => min m ((metricVal x y : ℝ) : WithTop ℝ)) ⊤

/-- Real-valued version of `infVal` for a nonempty `Y`. -/
def infR (x : Pt) (Y : List Pt) : ℝ :=
  match Y with
  | [] => 0
  | y0 :: rest => rest.foldl (fun m y => min m (metricVal x y)) (metricVal x y0)

/-- The value of one outer loop of `hausdorff_python` (for well-dimensioned,
nonempty input): running maximum of `infR` over rows of `A`, starting at `-1`. -/
def supR (A B : List Pt) : ℝ :=
  A.foldl (fun s a => max s (infR a B)) (-1)

/-- The real number `hausdorff_python X Y` returns on nonempty
well-dimensioned input. -/
def hdR (X Y : List Pt) : ℝ :=
  max (supR X Y) (supR Y X)

/-! ### A heap model for the frame property

`metric_python` executes `ret = x - y` (allocating a fresh array) and then
`ret *= ret` (an in-place write to that fresh array).  To state that a call
leaves the caller's arrays untouched we model the NumPy heap explicitly: a
heap is a list of arrays, rows are referred to by index, `ret = x - y`
allocates at the end of the heap, and `ret *= ret` overwrites in place. -/

/-- The NumPy heap: arbitrarily many allocated 1-D arrays. -/
abbrev Heap := List Pt

/-- `metric_python` acting on the heap: reads rows `ix`, `iy`, allocates
`ret = x - y`, squares it in place, and returns the sum of elementwise
square roots. -/
def metric_heap (h : Heap) (ix iy : ℕ) : Except NpError (Heap × ℝ) := do
  let x := h.getD ix []
  let y := h.getD iy []
  let ret ← broadcastSub x y
  let r := h.length
  let h1 := h ++ [ret]
  let h2 := h1.set r ((h1.getD r []).map (fun a => a * a))
  return (h2, (((h2.getD r []).map Real.sqrt).sum))

/-- The loop of `inf_dist_python` on the heap. -/
def inf_dist_loop_heap (ix : ℕ) : List ℕ → Heap → WithTop ℝ → Except NpError (Heap × WithTop ℝ)
  | [], h, inf => .ok (h, inf)
  | iy :: rest, h, inf =>
    match metric_heap h ix iy with
    | .error e => .error e
    | .ok (h', dist) =>
      inf_dist_loop_heap ix rest h'
        (if (dist : WithTop ℝ) < inf then (dist : WithTop ℝ) else inf)

/-- `inf_dist_python` on the heap. -/
def inf_dist_heap (h : Heap) (ix : ℕ) (Yrefs : List ℕ) : Except NpError (Heap × WithTop ℝ) :=
  inf_dist_loop_heap ix Yrefs h ⊤

/-- One outer loop of `hausdorff_python` on the heap. -/
def sup_loop_heap : List ℕ → List ℕ → Heap → WithTop ℝ → Except NpError (Heap × WithTop ℝ)
  | [], _, h, sup => .ok (h, sup)
  | ia :: rest, Brefs, h, sup =>
    match inf_dist_heap h ia Brefs with
    | .error e => .error e
    | .ok (h', inf1) =>
      sup_loop_heap rest Brefs h' (if sup < inf1 then inf1 else sup)

/-- `hausdorff_python` on the heap: the two arrays are passed as lists of
row references into the heap. -/
def hausdorff_heap (h : Heap) (Xrefs Yrefs : List ℕ) :
    Except NpError (Heap × WithTop ℝ) := do
  let (h1, sup1) ← sup_loop_heap Xrefs Yrefs h ((-1 : ℝ) : WithTop ℝ)
  let (h2, sup2) ← sup_loop_heap Yrefs Xrefs h1 ((-1 : ℝ) : WithTop ℝ)
  return (h2, max sup1 sup2)

lemma ite_lt_eq_min (d acc : WithTop ℝ) : (if d < acc then d else acc) = min acc d := by
  rcases lt_trichotomy d acc with h | h | h
  · simp [h, min_eq_right h.le]
  · simp [h, lt_irrefl]
  · simp [not_lt.mpr h.le, min_eq_left h.le]

lemma ite_lt_eq_max (s v : WithTop ℝ) : (if s < v then v else s) = max s v := by
  rcases lt_trichotomy s v with h | h | h
  · simp [h, max_eq_right h.le]
  · simp [h, lt_irrefl]
  · simp [not_lt.mpr h.le, max_eq_left h.le]

lemma metric_python_ok (x y : Pt) (h : x.length = y.length) :
    metric_python x y = .ok (metricVal x y) := by
  simp [metric_python, broadcastSub, h, metricVal, Except.bind]

lemma inf_dist_loop_ok (x : Pt) (Y : List Pt) (h : ∀ y ∈ Y, y.length = x.length) :
    ∀ acc, inf_dist_loop x Y acc =
      .ok (Y.foldl (fun m y => min m ((metricVal x y : ℝ) : WithTop ℝ)) acc) := by
  induction Y with
  | nil => intro acc; simp [inf_dist_loop]
  | cons y0 rest ih =>
    intro acc
    have hy0 : y0.length = x.length := h y0 (by simp)
    rw [inf_dist_loop, metric_python_ok x y0 hy0.symm]
    simp only [List.foldl_cons]
    rw [ite_lt_eq_min]
    exact ih (fun y hy => h y (by simp [hy])) _

lemma inf_dist_python_ok (x : Pt) (Y : List Pt) (h : ∀ y ∈ Y, y.length = x.length) :
    inf_dist_python x Y = .ok (infVal x Y) :=
  inf_dist_loop_ok x Y h ⊤

lemma coe_foldl_min (x : Pt) (l : List Pt) :
    ∀ a : ℝ, l.foldl (fun m y => min m ((metricVal x y : ℝ) : WithTop ℝ)) ((a : ℝ) : WithTop ℝ)
      = ((l.foldl (fun m y => min m (metricVal x y)) a : ℝ) : WithTop ℝ) := by
  induction l with
  | nil => intro a; simp
  | cons y0 rest ih =>
    intro a
    simp only [List.foldl_cons]
    rw [← WithTop.coe_min, ih]

lemma infVal_eq_infR (x : Pt) (Y : List Pt) (h : Y ≠ []) :
    infVal x Y = ((infR x Y : ℝ) : WithTop ℝ) := by
  match Y with
  | [] => exact absurd rfl h
  | y0 :: rest =>
    rw [infVal, infR, List.foldl_cons, min_comm, min_eq_left le_top, coe_foldl_min]

lemma sup_loop_ok (A B : List Pt) (d : ℕ) (hA : ∀ a ∈ A, a.length = d)
    (hB : ∀ b ∈ B, b.length = d) :
    ∀ acc, sup_loop A B acc =
      .ok (A.foldl (fun s a => max s (infVal a B)) acc) := by
  induction A with
  | nil => intro acc; simp [sup_loop]
  | cons a0 rest ih =>
    intro acc
    have ha0 : a0.length = d := hA a0 (by simp)
    rw [sup_loop, inf_dist_python_ok a0 B (fun b hb => by rw [hB b hb, ha0])]
    simp only [List.foldl_cons]
    rw [ite_lt_eq_max]
    exact ih (fun a ha => hA a (by simp [ha])) _

lemma coe_foldl_max (B : List Pt) (hB : B ≠ []) (l : List Pt) :
    ∀ a : ℝ, l.foldl (fun s x => max s (infVal x B)) ((a : ℝ) : WithTop ℝ)
      = ((l.foldl (fun s x => max s (infR x B)) a : ℝ) : WithTop ℝ) := by
  induction l with
  | nil => intro a; simp
  | cons x0 rest ih =>
    intro a
    simp only [List.foldl_cons]
    rw [infVal_eq_infR x0 B hB, ← WithTop.coe_max, ih]

lemma hausdorff_python_ok (X Y : List Pt) (d : ℕ) (hX : X ≠ []) (hY : Y ≠ [])
    (hXd : ∀ a ∈ X, a.length = d) (hYd : ∀ b ∈ Y, b.length = d) :
    hausdorff_python X Y = .ok ((hdR X Y : ℝ) : WithTop ℝ) := by
  rw [hausdorff_python]
  rw [sup_loop_ok X Y d hXd hYd, sup_loop_ok Y X d hYd hXd]
  simp only [Except.bind, bind, pure, Except.pure, coe_foldl_max Y hY X, coe_foldl_max X hX Y]
  rw [← WithTop.coe_max]
  rfl

section FoldLemmas

variable {α β : Type*} [LinearOrder β]

lemma foldl_min_le_init (g : α → β) (l : List α) :
    ∀ a : β, l.foldl (fun m x => min m (g x)) a ≤ a := by
  induction l with
  | nil => intro a; exact le_refl a
  | cons y rest ih =>
    intro a
    simpa using (ih (min a (g y))).trans (min_le_left _ _)

lemma foldl_min_le_mem (g : α → β) (l : List α) (x : α) (hx : x ∈ l) :
    ∀ a : β, l.foldl (fun m z => min m (g z)) a ≤ g x := by
  induction l with
  | nil => exact absurd hx (List.not_mem_nil x)
  | cons y rest ih =>
    intro a
    rcases List.mem_cons.mp hx with h | h
    · subst h
      simpa using (foldl_min_le_init g rest (min a (g x))).trans (min_le_right _ _)
    · simpa using ih h (min a (g y))

lemma foldl_min_cases (g : α → β) (l : List α) :
    ∀ a : β, l.foldl (fun m x => min m (g x)) a = a ∨
      ∃ x ∈ l, l.foldl (fun m z => min m (g z)) a = g x := by
  induction l with
  | nil => intro a; exact Or.inl rfl
  | cons y rest ih =>
    intro a
    rcases ih (min a (g y)) with h | ⟨x, hx, h⟩
    · rcases min_choice a (g y) with hm | hm
      · left; simpa [hm] using h
      · right; exact ⟨y, by simp, by simpa [hm] using h⟩
    · right; exact ⟨x, by simp [hx], by simpa using h⟩

lemma init_le_foldl_max (g : α → β) (l : List α) :
    ∀ a : β, a ≤ l.foldl (fun s x => max s (g x)) a := by
  induction l with
  | nil => intro a; exact le_refl a
  | cons y rest ih =>
    intro a
    simpa using (le_max_left a (g y)).trans (ih (max a (g y)))

lemma mem_le_foldl_max (g : α → β) (l : List α) (x : α) (hx : x ∈ l) :
    ∀ a : β, g x ≤ l.foldl (fun s z => max s (g z)) a := by
  induction l with
  | nil => exact absurd hx (List.not_mem_nil x)
  | cons y rest ih =>
    intro a
    rcases List.mem_cons.mp hx with h | h
    · subst h
      simpa using (le_max_right a (g x)).trans (init_le_foldl_max g rest (max a (g x)))
    · simpa using ih h (max a (g y))

lemma foldl_max_cases (g : α → β) (l : List α) :
    ∀ a : β, l.foldl (fun s x => max s (g x)) a = a ∨
      ∃ x ∈ l, l.foldl (fun s z => max s (g z)) a = g x := by
  induction l with
  | nil => intro a; exact Or.inl rfl
  | cons y rest ih =>
    intro a
    rcases ih (max a (g y)) with h | ⟨x, hx, h⟩
    · rcases max_choice a (g y) with hm | hm
      · left; simpa [hm] using h
      · right; exact ⟨y, by simp, by simpa [hm] using h⟩
    · right; exact ⟨x, by simp [hx], by simpa using h⟩

end FoldLemmas

lemma metricVal_nonneg (x y : Pt) : 0 ≤ metricVal x y := by
  apply List.sum_nonneg
  intro r hr
  rcases List.mem_map.mp hr with ⟨a, _, rfl⟩
  exact Real.sqrt_nonneg a

lemma metricVal_self (x : Pt) : metricVal x x = 0 := by
  induction x with
  | nil => simp [metricVal]
  | cons a rest ih =>
    simp only [metricVal, List.zipWith_cons_cons, List.map_cons, List.sum_cons] at *
    simp [ih]

lemma infR_le (x : Pt) (Y : List Pt) (y : Pt) (hy : y ∈ Y) :
    infR x Y ≤ metricVal x y := by
  match Y with
  | [] => exact absurd hy (List.not_mem_nil y)
  | y0 :: rest =>
    rw [infR]
    rcases List.mem_cons.mp hy with h | h
    · subst h; exact foldl_min_le_init _ rest _
    · exact foldl_min_le_mem _ rest y h _

lemma infR_mem (x : Pt) (Y : List Pt) (hY : Y ≠ []) :
    ∃ y ∈ Y, infR x Y = metricVal x y := by
  match Y with
  | [] => exact absurd rfl hY
  | y0 :: rest =>
    rw [infR]
    rcases foldl_min_cases (fun y => metricVal x y) rest (metricVal x y0) with h | ⟨y, hy, h⟩
    · exact ⟨y0, by simp, h⟩
    · exact ⟨y, by simp [hy], h⟩

lemma infR_nonneg (x : Pt) (Y : List Pt) (hY : Y ≠ []) : 0 ≤ infR x Y := by
  rcases infR_mem x Y hY with ⟨y, _, h⟩
  rw [h]; exact metricVal_nonneg x y

lemma infR_self_zero (x : Pt) (X : List Pt) (hx : x ∈ X) : infR x X = 0 :=
  le_antisymm ((infR_le x X x hx).trans_eq (metricVal_self x))
    (infR_nonneg x X (List.ne_nil_of_mem hx))

lemma supR_nonneg (A B : List Pt) (hA : A ≠ []) (hB : B ≠ []) : 0 ≤ supR A B := by
  match A with
  | [] => exact absurd rfl hA
  | a0 :: rest =>
    rw [supR]
    exact (infR_nonneg a0 B hB).trans
      (mem_le_foldl_max (fun a => infR a B) (a0 :: rest) a0 (by simp) (-1))

lemma supR_self (X : List Pt) (hX : X ≠ []) : supR X X = 0 := by
  have h0 : 0 ≤ supR X X := supR_nonneg X X hX hX
  rcases foldl_max_cases (fun a => infR a X) X (-1) with h | ⟨x, hx, h⟩
  · rw [supR] at h0 ⊢; rw [h] at h0; linarith
  · rw [supR, h, infR_self_zero x X hx]

lemma hdR_self (X : List Pt) (hX : X ≠ []) : hdR X X = 0 := by
  rw [hdR, supR_self X hX, max_self]

lemma hdR_nonneg (X Y : List Pt) (hX : X ≠ []) (hY : Y ≠ []) : 0 ≤ hdR X Y :=
  (supR_nonneg X Y hX hY).trans (le_max_left _ _)

lemma hausdorff_python_comm (X Y : List Pt) :
    hausdorff_python X Y = hausdorff_python Y X := by
  rw [hausdorff_python, hausdorff_python]
  cases h1 : sup_loop X Y ((-1 : ℝ) : WithTop ℝ) with
  | error e =>
    cases h2 : sup_loop Y X ((-1 : ℝ) : WithTop ℝ) with
    | error e' => cases e; cases e'; simp [Except.bind, bind]
    | ok s2 => simp [Except.bind, bind, h1]
  | ok s1 =>
    cases h2 : sup_loop Y X ((-1 : ℝ) : WithTop ℝ) with
    | error e' => simp [Except.bind, bind, h1]
    | ok s2 => simp [Except.bind, bind, pure, Except.pure, max_comm]

lemma metric_numba_eq : metric_numba = metric_python := rfl

lemma inf_dist_loop_numba_eq (x : Pt) :
    ∀ (Y : List Pt) (acc : WithTop ℝ), inf_dist_loop_numba x Y acc = inf_dist_loop x Y acc := by
  intro Y
  induction Y with
  | nil => intro acc; rfl
  | cons y rest ih =>
    intro acc
    rw [inf_dist_loop_numba, inf_dist_loop, metric_numba_eq]
    cases metric_python x y with
    | error e => rfl
    | ok dist => exact ih _

lemma inf_dist_numba_eq (x : Pt) (Y : List Pt) : inf_dist_numba x Y = inf_dist_python x Y :=
  inf_dist_loop_numba_eq x Y ⊤

lemma sup_loop_numba_eq : ∀ (A B : List Pt) (acc : WithTop ℝ),
    sup_loop_numba A B acc = sup_loop A B acc := by
  intro A
  induction A with
  | nil => intro B acc; rfl
  | cons a rest ih =>
    intro B acc
    rw [sup_loop_numba, sup_loop, inf_dist_numba_eq]
    cases inf_dist_python a B with
    | error e => rfl
    | ok inf1 => exact ih _ _

lemma hausdorff_numba_eq (X Y : List Pt) : hausdorff_numba X Y = hausdorff_python X Y := by
  rw [hausdorff_numba, hausdorff_python, sup_loop_numba_eq, sup_loop_numba_eq]

lemma inf_dist_python_nil (x : Pt) : inf_dist_python x [] = .ok ⊤ := rfl

lemma sup_loop_nil_right_top : ∀ A : List Pt, sup_loop A [] ⊤ = .ok ⊤ := by
  intro A
  induction A with
  | nil => rfl
  | cons a rest ih =>
    simp only [sup_loop, inf_dist_python, inf_dist_loop]
    rw [if_neg (lt_irrefl ⊤)]
    exact ih

lemma sup_loop_nil_right (A : List Pt) (hA : A ≠ []) :
    sup_loop A [] ((-1 : ℝ) : WithTop ℝ) = .ok ⊤ := by
  match A with
  | [] => exact absurd rfl hA
  | a :: rest =>
    simp only [sup_loop, inf_dist_python, inf_dist_loop]
    rw [if_pos (WithTop.coe_lt_top (-1 : ℝ))]
    exact sup_loop_nil_right_top rest

lemma hausdorff_python_empty (X Y : List Pt) (h : X = [] ∨ Y = []) :
    hausdorff_python X Y =
      .ok (if X = [] ∧ Y = [] then ((-1 : ℝ) : WithTop ℝ) else ⊤) := by
  rcases h with rfl | rfl
  · match Y with
    | [] => simp [hausdorff_python, sup_loop, Except.bind, bind, pure, Except.pure]
    | y :: rest =>
      rw [hausdorff_python, sup_loop_nil_right (y :: rest) (by simp)]
      simp only [sup_loop, Except.bind, bind, pure, Except.pure]
      rw [max_eq_right le_top]
      simp
  · match X with
    | [] => simp [hausdorff_python, sup_loop, Except.bind, bind, pure, Except.pure]
    | x :: rest =>
      rw [hausdorff_python, sup_loop_nil_right (x :: rest) (by simp)]
      simp only [sup_loop, Except.bind, bind, pure, Except.pure]
      rw [max_eq_left le_top]
      simp

lemma set_append_length {α : Type*} (l : List α) (a b : α) :
    (l ++ [a]).set l.length b = l ++ [b] := by
  induction l with
  | nil => rfl
  | cons x xs ih => simp [List.set, ih]

lemma metric_heap_ok_shape (h : Heap) (ix iy : ℕ) (ret : Pt)
    (hb : broadcastSub (h.getD ix []) (h.getD iy []) = .ok ret) :
    metric_heap h ix iy =
      .ok (h ++ [ret.map (fun a => a * a)],
        (((ret.map (fun a => a * a)).map Real.sqrt).sum)) := by
  rw [metric_heap, hb]
  simp only [Except.bind, bind, pure, Except.pure]
  rw [List.getD_append_right _ _ _ _ (le_refl _), Nat.sub_self]
  rw [show ([ret].getD 0 [] : Pt) = ret from rfl, set_append_length]
  rw [List.getD_append_right _ _ _ _ (le_refl _), Nat.sub_self]
  rfl

lemma metric_heap_frame (h : Heap) (ix iy : ℕ) (h' : Heap) (v : ℝ)
    (hm : metric_heap h ix iy = .ok (h', v)) : ∃ a, h' = h ++ [a] := by
  cases hb : broadcastSub (h.getD ix []) (h.getD iy []) with
  | error e =>
    rw [metric_heap, hb] at hm
    exact absurd hm (by simp [Except.bind, bind])
  | ok ret =>
    rw [metric_heap_ok_shape h ix iy ret hb] at hm
    exact ⟨ret.map (fun a => a * a), (congrArg Prod.fst (Except.ok.inj hm)).symm⟩

lemma inf_dist_loop_heap_frame (ix : ℕ) :
    ∀ (refs : List ℕ) (h : Heap) (acc : WithTop ℝ) (h' : Heap) (v : WithTop ℝ),
      inf_dist_loop_heap ix refs h acc = .ok (h', v) → ∃ t, h' = h ++ t := by
  intro refs
  induction refs with
  | nil =>
    intro h acc h' v hm
    rw [inf_dist_loop_heap] at hm
    exact ⟨[], by simpa using (congrArg Prod.fst (Except.ok.inj hm)).symm⟩
  | cons iy rest ih =>
    intro h acc h' v hm
    rw [inf_dist_loop_heap] at hm
    cases hm1 : metric_heap h ix iy with
    | error e => rw [hm1] at hm; exact absurd hm (by simp)
    | ok p =>
      rw [hm1] at hm
      obtain ⟨a, ha⟩ := metric_heap_frame h ix iy p.1 p.2 (by rw [hm1])
      obtain ⟨t, ht⟩ := ih p.1 _ h' v hm
      exact ⟨[a] ++ t, by rw [ht, ha, List.append_assoc]⟩

lemma sup_loop_heap_frame :
    ∀ (Arefs Brefs : List ℕ) (h : Heap) (acc : WithTop ℝ) (h' : Heap) (v : WithTop ℝ),
      sup_loop_heap Arefs Brefs h acc = .ok (h', v) → ∃ t, h' = h ++ t := by
  intro Arefs
  induction Arefs with
  | nil =>
    intro Brefs h acc h' v hm
    rw [sup_loop_heap] at hm
    exact ⟨[], by simpa using (congrArg Prod.fst (Except.ok.inj hm)).symm⟩
  | cons ia rest ih =>
    intro Brefs h acc h' v hm
    rw [sup_loop_heap] at hm
    cases hm1 : inf_dist_heap h ia Brefs with
    | error e => rw [hm1] at hm; exact absurd hm (by simp)
    | ok p =>
      rw [hm1] at hm
      obtain ⟨t1, ht1⟩ := inf_dist_loop_heap_frame ia Brefs h ⊤ p.1 p.2 (by rw [← hm1]; rfl)
      obtain ⟨t2, ht2⟩ := ih Brefs p.1 _ h' v hm
      exact ⟨t1 ++ t2, by rw [ht2, ht1, List.append_assoc]⟩

lemma hausdorff_heap_frame (h : Heap) (Xrefs Yrefs : List ℕ) (h' : Heap) (v : WithTop ℝ)
    (hm : hausdorff_heap h Xrefs Yrefs = .ok (h', v)) : ∃ t, h' = h ++ t := by
  rw [hausdorff_heap] at hm
  cases hm1 : sup_loop_heap Xrefs Yrefs h ((-1 : ℝ) : WithTop ℝ) with
  | error e => rw [hm1] at hm; exact absurd hm (by simp [Except.bind, bind])
  | ok p =>
    obtain ⟨h1, s1⟩ := p
    rw [hm1] at hm
    simp only [Except.bind, bind] at hm
    cases hm2 : sup_loop_heap Yrefs Xrefs h1 ((-1 : ℝ) : WithTop ℝ) with
    | error e =>
      rw [hm2] at hm
      exact absurd hm (by simp [Except.bind, bind])
    | ok q =>
      obtain ⟨h2, s2⟩ := q
      rw [hm2] at hm
      obtain ⟨t1, ht1⟩ := sup_loop_heap_frame Xrefs Yrefs h _ h1 s1 (by rw [hm1])
      obtain ⟨t2, ht2⟩ := sup_loop_heap_frame Yrefs Xrefs h1 _ h2 s2 (by rw [hm2])
      have hq : h2 = h' := by
        simpa [Except.bind, bind, pure, Except.pure] using congrArg Prod.fst (Except.ok.inj hm)
      exact ⟨t1 ++ t2, by rw [← hq, ht2, ht1, List.append_assoc]⟩

/-- C1: the spec claims `metric_python` returns the Euclidean distance
`sqrt(sum (x_k - y_k)^2)`.  The code instead sums the elementwise square
roots of the squared differences (the L1 distance): on `x = [0,0]`,
`y = [1,1]` it returns `2`, while the Euclidean distance is `sqrt 2 ≠ 2`. -/
theorem C1_metric_is_not_euclidean :
    metric_python [(0 : ℝ), 0] [1, 1] = .ok 2 ∧
      euclid_spec [(0 : ℝ), 0] [1, 1] = Real.sqrt 2 ∧ Real.sqrt 2 ≠ 2 := by
  refine ⟨?_, ?_, ?_⟩
  · simp [metric_python, broadcastSub, Except.bind]
    norm_num
  · simp [euclid_spec]
    norm_num
  · intro hc
    have h2 := Real.sq_sqrt (by norm_num : (0 : ℝ) ≤ 2)
    rw [hc] at h2
    norm_num at h2

/-- C2: the spec claims `hausdorff_python([[0,0,0],[10,10,10]], [[0,0,0]])`
is `10·sqrt 3 ≈ 17.3205`.  The code returns `30` (the L1 distance between
`[10,10,10]` and `[0,0,0]`), and `30 ≠ 10·sqrt 3`. -/
theorem C2_scenario_c_returns_30 :
    hausdorff_python [[(0 : ℝ), 0, 0], [10, 10, 10]] [[0, 0, 0]] = .ok ((30 : ℝ) : WithTop ℝ) ∧
      (30 : ℝ) ≠ 10 * Real.sqrt 3 := by
  constructor
  · rw [hausdorff_python_ok _ _ 3 (by simp) (by simp) (by simp) (by simp)]
    have h100 : Real.sqrt 100 = 10 := by
      rw [show (100 : ℝ) = 10 ^ 2 by norm_num, Real.sqrt_sq (by norm_num : (0 : ℝ) ≤ 10)]
    norm_num [hdR, supR, infR, metricVal, h100]
  · intro hc
    have h3 := Real.sq_sqrt (by norm_num : (0 : ℝ) ≤ 3)
    nlinarith [Real.sqrt_nonneg 3]

/-- C3 counterexample: `hausdorff_python([], [[0,0,0]])` does not fail with
an `EmptySet` error; it returns the numeric value `inf`. -/
theorem C3_counterexample_no_error :
    hausdorff_python [] [[(0 : ℝ), 0, 0]] = .ok ⊤ := by
  simpa using hausdorff_python_empty [] [[(0 : ℝ), 0, 0]] (Or.inl rfl)

/-- C3 amended: when at least one input set is empty the hausdorff distance
operation raises no error at all: it returns `-1.0` when both sets are
empty and `inf` when exactly one is. -/
theorem C3_amended_empty_returns_value :
    ∀ X Y : List Pt, X = [] ∨ Y = [] →
      hausdorff_python X Y =
        .ok (if X = [] ∧ Y = [] then ((-1 : ℝ) : WithTop ℝ) else ⊤) :=
  hausdorff_python_empty

/-- C3 witness: the amended claim instantiated at `X = [[1]]`, `Y = []`. -/
theorem C3_amended_witness :
    hausdorff_python [[(1 : ℝ)]] [] = .ok ⊤ := by
  simpa using C3_amended_empty_returns_value [[(1 : ℝ)]] [] (Or.inr rfl)

/-- C4 counterexample: the claim quantifies over all mismatched-dimension
pairs including dimension 1, but `metric_python([0], [1,2,3])` does not
fail: NumPy broadcasts the length-1 operand and the call returns `6`. -/
theorem C4_counterexample_dim1_broadcasts :
    metric_python [(0 : ℝ)] [1, 2, 3] = .ok 6 := by
  simp [metric_python, broadcastSub, Except.bind]
  norm_num

/-- C4 amended: `metric_python` fails (with NumPy's broadcast `ValueError`,
not a dedicated DimensionMismatch error) exactly when the two lengths
differ and neither is 1; in particular
`hausdorff_python([[0,0]], [[0,0,0]])` fails with that error. -/
theorem C4_amended_mismatch_errors :
    (∀ x y : Pt, x.length ≠ y.length → x.length ≠ 1 → y.length ≠ 1 →
      metric_python x y = .error .broadcast) ∧
    hausdorff_python [[(0 : ℝ), 0]] [[0, 0, 0]] = .error .broadcast := by
  constructor
  · intro x y h1 h2 h3
    simp [metric_python, broadcastSub, h1, h2, h3, Except.bind]
  · simp [hausdorff_python, sup_loop, inf_dist_python, inf_dist_loop, metric_python,
      broadcastSub, Except.bind, bind]

/-- C4 witness: the amended claim's first part at `x = [0,0]`,
`y = [0,0,0,0]`. -/
theorem C4_amended_witness :
    metric_python [(0 : ℝ), 0] [0, 0, 0, 0] = .error .broadcast :=
  C4_amended_mismatch_errors.1 [(0 : ℝ), 0] [0, 0, 0, 0] (by simp) (by simp) (by simp)

/-- C5: for all non-empty point sets `X`, `Y` of matching dimension,
`hausdorff_python X Y = hausdorff_python Y X`. -/
theorem C5_hausdorff_symmetric :
    ∀ (d : ℕ) (X Y : List Pt), X ≠ [] → Y ≠ [] →
      (∀ a ∈ X, a.length = d) → (∀ b ∈ Y, b.length = d) →
      hausdorff_python X Y = hausdorff_python Y X :=
  fun _ X Y _ _ _ _ => hausdorff_python_comm X Y

/-- C5 witness: symmetry instantiated at `X = [[0]]`, `Y = [[1]]`. -/
theorem C5_witness :
    hausdorff_python [[(0 : ℝ)]] [[1]] = hausdorff_python [[(1 : ℝ)]] [[0]] :=
  C5_hausdorff_symmetric 1 [[(0 : ℝ)]] [[1]] (by simp) (by simp) (by simp) (by simp)

/-- C6: for a point `x` and a non-empty well-dimensioned set `Y`,
`inf_dist_python x Y` returns a value `r` that is the metric value of
some row of `Y` and is a lower bound of all the metric values: the
minimum `min_j metric(x, Y[j])`. -/
theorem C6_inf_dist_is_min :
    ∀ (x : Pt) (Y : List Pt), Y ≠ [] → (∀ y ∈ Y, y.length = x.length) →
      ∃ r : ℝ, inf_dist_python x Y = .ok ((r : ℝ) : WithTop ℝ) ∧
        (∃ y ∈ Y, metric_python x y = .ok r) ∧
        (∀ y ∈ Y, ∀ s : ℝ, metric_python x y = .ok s → r ≤ s) := by
  intro x Y hY hdim
  refine ⟨infR x Y, ?_, ?_, ?_⟩
  · rw [inf_dist_python_ok x Y hdim, infVal_eq_infR x Y hY]
  · obtain ⟨y, hy, h⟩ := infR_mem x Y hY
    exact ⟨y, hy, by rw [metric_python_ok x y (hdim y hy).symm, h]⟩
  · intro y hy s hs
    rw [metric_python_ok x y (hdim y hy).symm] at hs
    rw [← Except.ok.inj hs]
    exact infR_le x Y y hy

/-- C6 witness: the minimum property instantiated at `x = [0]`,
`Y = [[3]]`. -/
theorem C6_witness :
    ∃ r : ℝ, inf_dist_python [(0 : ℝ)] [[3]] = .ok ((r : ℝ) : WithTop ℝ) ∧
      (∃ y ∈ [[(3 : ℝ)]], metric_python [(0 : ℝ)] y = .ok r) ∧
      (∀ y ∈ [[(3 : ℝ)]], ∀ s : ℝ, metric_python [(0 : ℝ)] y = .ok s → r ≤ s) :=
  C6_inf_dist_is_min [(0 : ℝ)] [[3]] (by simp) (by simp)

/-- C7: the plain-Python variant and the JIT-decorated variant compute the
same function on non-empty sets of matching dimension. -/
theorem C7_python_numba_agree :
    ∀ (d : ℕ) (X Y : List Pt), X ≠ [] → Y ≠ [] →
      (∀ a ∈ X, a.length = d) → (∀ b ∈ Y, b.length = d) →
      hausdorff_python X Y = hausdorff_numba X Y :=
  fun _ X Y _ _ _ _ => (hausdorff_numba_eq X Y).symm

/-- C7 witness: agreement of the two variants at `X = [[0]]`, `Y = [[2]]`. -/
theorem C7_witness :
    hausdorff_python [[(0 : ℝ)]] [[2]] = hausdorff_numba [[(0 : ℝ)]] [[2]] :=
  C7_python_numba_agree 1 [[(0 : ℝ)]] [[2]] (by simp) (by simp) (by simp) (by simp)

/-- C8: `hausdorff_python X X = 0` for non-empty well-dimensioned `X`, and
`hausdorff_python X Y` is a non-negative real for non-empty
well-dimensioned `X`, `Y`. -/
theorem C8_self_zero_and_nonneg :
    (∀ (d : ℕ) (X : List Pt), X ≠ [] → (∀ x ∈ X, x.length = d) →
      hausdorff_python X X = .ok ((0 : ℝ) : WithTop ℝ)) ∧
    (∀ (d : ℕ) (X Y : List Pt), X ≠ [] → Y ≠ [] →
      (∀ x ∈ X, x.length = d) → (∀ y ∈ Y, y.length = d) →
      ∃ v : ℝ, hausdorff_python X Y = .ok ((v : ℝ) : WithTop ℝ) ∧ 0 ≤ v) := by
  constructor
  · intro d X hX hXd
    rw [hausdorff_python_ok X X d hX hX hXd hXd, hdR_self X hX]
  · intro d X Y hX hY hXd hYd
    exact ⟨hdR X Y, hausdorff_python_ok X Y d hX hY hXd hYd, hdR_nonneg X Y hX hY⟩

/-- C8 witness: self-distance at `X = [[5]]` and non-negativity at
`X = [[0]]`, `Y = [[2]]`. -/
theorem C8_witness :
    hausdorff_python [[(5 : ℝ)]] [[5]] = .ok ((0 : ℝ) : WithTop ℝ) ∧
      ∃ v : ℝ, hausdorff_python [[(0 : ℝ)]] [[2]] = .ok ((v : ℝ) : WithTop ℝ) ∧ 0 ≤ v :=
  ⟨C8_self_zero_and_nonneg.1 1 [[(5 : ℝ)]] (by simp) (by simp),
   C8_self_zero_and_nonneg.2 1 [[(0 : ℝ)]] [[2]] (by simp) (by simp) (by simp) (by simp)⟩

/-- C9: a call to the hausdorff distance operation only allocates fresh
arrays: the final heap extends the initial one, so every pre-existing
array — in particular every row of `X` and `Y` — is unchanged, despite
the in-place `ret *= ret` inside the metric (which only mutates the
freshly allocated `ret`). -/
theorem C9_hausdorff_preserves_heap :
    ∀ (h : Heap) (Xrefs Yrefs : List ℕ) (h' : Heap) (v : WithTop ℝ),
      hausdorff_heap h Xrefs Yrefs = .ok (h', v) →
      (∃ t, h' = h ++ t) ∧ (∀ i, i < h.length → h'.getD i [] = h.getD i []) := by
  intro h X Y h' v hm
  obtain ⟨t, ht⟩ := hausdorff_heap_frame h X Y h' v hm
  refine ⟨⟨t, ht⟩, ?_⟩
  intro i hi
  rw [ht, List.getD_append _ _ _ _ hi]

/-- C9 witness: the frame property instantiated on the one-array heap
`[[3]]`. -/
theorem C9_witness :
    (∃ t, ([[(3 : ℝ)]] : Heap) = [[(3 : ℝ)]] ++ t) ∧
      (∀ i, i < ([[(3 : ℝ)]] : Heap).length →
        ([[(3 : ℝ)]] : Heap).getD i [] = ([[(3 : ℝ)]] : Heap).getD i []) :=
  C9_hausdorff_preserves_heap [[(3 : ℝ)]] [] [] [[(3 : ℝ)]]
    (max ((-1 : ℝ) : WithTop ℝ) ((-1 : ℝ) : WithTop ℝ)) rfl

/-- C10: with both sets empty `hausdorff_python` returns the sentinel
`-1.0` (no error raised: both running suprema keep their `-1.`
initialization), and with exactly one set empty it returns `inf`. -/
theorem C10_empty_set_sentinels :
    hausdorff_python [] [] = .ok ((-1 : ℝ) : WithTop ℝ) ∧
    (∀ X Y : List Pt, (X = [] ∧ Y ≠ []) ∨ (X ≠ [] ∧ Y = []) →
      hausdorff_python X Y = .ok ⊤) := by
  constructor
  · simpa using hausdorff_python_empty [] [] (Or.inl rfl)
  · intro X Y h
    rcases h with ⟨h1, h2⟩ | ⟨h1, h2⟩
    · rw [hausdorff_python_empty X Y (Or.inl h1)]
      simp [h2]
    · rw [hausdorff_python_empty X Y (Or.inr h2)]
      simp [h1]

/-- C10 witness: one-empty-set case instantiated at `X = []`,
`Y = [[1,2]]`. -/
theorem C10_witness :
    hausdorff_python [] [[(1 : ℝ), 2]] = .ok ⊤ :=
  C10_empty_set_sentinels.2 [] [[(1 : ℝ), 2]] (Or.inl ⟨rfl, by simp⟩)
